import Mathlib

/-!
Shallow embedding of `src/modules/text_to_speech/vocoder_core.py`
(class `GLaDOSVocoder`).

An audio buffer is a `List ℝ` (exact-real samples; numpy arrays become lists,
elementwise numpy operations become `List.map` over the values or over the
index range).  `np.fft.fft` / `np.fft.ifft` are the standard discrete Fourier
transform with numpy's sign and scaling conventions.  Python `int(x)` is
truncation toward zero.  Each `_stage` function keeps the name, the guard
structure and the branch order of the corresponding Python method.
-/

open scoped Classical

noncomputable section

namespace Vocoder

/-- `GLaDOSVocoder.__init__`: the fixed processing sample rate, 22050 Hz. -/
def sample_rate : ℕ := 22050

/-- Python `int(x)` applied to a real value: truncation toward zero. -/
def int_trunc (x : ℝ) : ℤ := if 0 ≤ x then ⌊x⌋ else ⌈x⌉

/-- `np.max(np.abs(audio))` folded with initial value `0` (every compared
entry is an absolute value, so the extra `0` is neutral for nonempty input). -/
def max_abs (audio : List ℝ) : ℝ := audio.foldr (fun x m => max |x| m) 0

/-- `GLaDOSVocoder._normalize_audio` (lines 175-183), `target_level` is the
Python default argument `0.9`. -/
def _normalize_audio (audio : List ℝ) (target_level : ℝ) : List ℝ :=
  if audio = [] then audio
  else if 0 < max_abs audio then
    audio.map (fun x => x * (target_level / max_abs audio))
  else audio

/-- `np.interp(t, np.arange(len fp), fp)` at a single query point `t`:
clamped at both ends, linear interpolation between neighbouring samples
inside the range (`fp[-1]` is `fp.getD (fp.length - 1) 0`). -/
def interp_point (fp : List ℝ) (t : ℝ) : ℝ :=
  if fp = [] then 0
  else if t ≤ 0 then fp.getD 0 0
  else if ((fp.length : ℝ) - 1) ≤ t then fp.getD (fp.length - 1) 0
  else
    let k : ℕ := ⌊t⌋.toNat
    fp.getD k 0 + (t - (k : ℝ)) * (fp.getD (k + 1) 0 - fp.getD k 0)

/-- `GLaDOSVocoder._pitch_shift` (lines 185-217).
`np.arange(0, len audio, pitch_ratio)` for a positive step has
`⌈len / pitch_ratio⌉` entries `k * pitch_ratio`; line 199 then filters the
entries to those `< len audio`. -/
def _pitch_shift (audio : List ℝ) (semitones : ℝ) : List ℝ :=
  if semitones = 0 ∨ audio = [] then audio
  else
    let pitch_ratio : ℝ := (2 : ℝ) ^ (semitones / 12)
    let indices : List ℝ :=
      ((List.range ⌈(audio.length : ℝ) / pitch_ratio⌉₊).map
          (fun (k : ℕ) => (k : ℝ) * pitch_ratio)).filter
        (fun t => t < (audio.length : ℝ))
    if indices = [] then audio
    else
      let shifted := indices.map (interp_point audio)
      if shifted.length < audio.length then
        shifted ++ List.replicate (audio.length - shifted.length) 0
      else shifted.take audio.length

/-- `np.fft.fft`: `X[k] = Σ_j x[j] · exp(-2πi·j·k/n)`. -/
def dft (x : List ℂ) : List ℂ :=
  (List.range x.length).map (fun (k : ℕ) =>
    ((List.range x.length).map (fun (j : ℕ) =>
      x.getD j 0 *
        Complex.exp (((-2 * Real.pi * j * k / x.length : ℝ) : ℂ) * Complex.I))).sum)

/-- `np.fft.ifft`: `x[j] = (1/n) · Σ_k X[k] · exp(2πi·j·k/n)`. -/
def idft (X : List ℂ) : List ℂ :=
  (List.range X.length).map (fun (j : ℕ) =>
    ((List.range X.length).map (fun (k : ℕ) =>
      X.getD k 0 *
        Complex.exp (((2 * Real.pi * j * k / X.length : ℝ) : ℂ) * Complex.I))).sum
      / (X.length : ℂ))

/-- The bin-remapping loop of `_formant_shift` (lines 233-241).  The loop
runs over `i < n / 2`; `freqs[i] = i · sample_rate / n` is positive exactly
when `0 < i`; the destination bin is
`int(freq · shift_ratio · n / sample_rate) = int(i · shift_ratio)`; when it
lies in `[0, n/2)` the source bin `fft_data[i]` is written there and
`fft_data[-(i+1)]` (index `n-1-i`) is written to `shifted_fft[-(new_idx+1)]`
(index `n-1-new_idx`). -/
def formant_remap (fft_data : List ℂ) (shift_ratio : ℝ) (n : ℕ) : List ℂ :=
  (List.range (n / 2)).foldl
    (fun acc (i : ℕ) =>
      if 0 < i then
        let new_idx : ℤ := int_trunc ((i : ℝ) * shift_ratio)
        if 0 ≤ new_idx ∧ new_idx < ((n / 2 : ℕ) : ℤ) then
          (acc.set new_idx.toNat (fft_data.getD i 0)).set
            (n - 1 - new_idx.toNat) (fft_data.getD (n - 1 - i) 0)
        else acc
      else acc)
    (List.replicate n 0)

/-- `GLaDOSVocoder._formant_shift` (lines 219-250). -/
def _formant_shift (audio : List ℝ) (shift_ratio : ℝ) : List ℝ :=
  if shift_ratio = 1 ∨ audio = [] then audio
  else
    (idft (formant_remap (dft (audio.map (fun (r : ℝ) => (r : ℂ))))
      shift_ratio audio.length)).map Complex.re

/-- `np.linspace 0 (n / rate) n` evaluated at index `j` (with endpoint,
numpy's default; a single-point linspace is `[0]`). -/
def linspace_t (n rate : ℕ) (j : ℕ) : ℝ :=
  if n ≤ 1 then 0 else ((n : ℝ) / (rate : ℝ)) * (j : ℝ) / ((n : ℝ) - 1)

/-- `GLaDOSVocoder._add_robotic_resonance` (lines 252-271): ring modulation
with a 120 Hz carrier, dry/wet blended by `intensity`. -/
def _add_robotic_resonance (audio : List ℝ) (intensity : ℝ) (rate : ℕ) : List ℝ :=
  if intensity = 0 ∨ audio = [] then audio
  else
    (List.range audio.length).map (fun j =>
      let x := audio.getD j 0
      let carrier := Real.sin (2 * Real.pi * 120 * linspace_t audio.length rate j)
      (1 - intensity) * x + intensity * (x * (1 + intensity * carrier)))

/-- `GLaDOSVocoder._apply_distortion` (lines 273-288): soft clipping blended
by `amount` (`np.sign 0 = 0 = Real.sign 0`). -/
def _apply_distortion (audio : List ℝ) (amount : ℝ) : List ℝ :=
  if amount = 0 ∨ audio = [] then audio
  else
    audio.map (fun x =>
      (1 - amount) * x +
        amount * (Real.sign x * (1 - Real.exp (-|x| / (1 - amount)))))

/-- `GLaDOSVocoder._add_echo` (lines 290-311): `echo[i] = decay · audio[i-d]`
for `i ≥ d`, zero before, added to the input. -/
def _add_echo (audio : List ℝ) (delay_ms decay : ℝ) (rate : ℕ) : List ℝ :=
  if delay_ms = 0 ∨ decay = 0 ∨ audio = [] then audio
  else
    let delay_samples : ℤ := int_trunc (delay_ms * (rate : ℝ) / 1000)
    if (audio.length : ℤ) ≤ delay_samples ∨ delay_samples ≤ 0 then audio
    else
      let d := delay_samples.toNat
      (List.range audio.length).map (fun i =>
        audio.getD i 0 + (if d ≤ i then audio.getD (i - d) 0 * decay else 0))

/-- Model of `scipy.signal.resample x num` (Fourier method): transform to the
frequency domain, keep the `min n num` lowest-frequency components (split
between the nonnegative and negative halves of the spectrum), inverse
transform at the new length and rescale amplitudes by `num / n`.  By
construction it returns exactly `num` samples, which is the documented
contract the caller relies on. -/
def scipy_signal_resample (x : List ℝ) (num : ℕ) : List ℝ :=
  let n := x.length
  let X := dft (x.map (fun (r : ℝ) => (r : ℂ)))
  let m := min n num
  let nyq := m / 2 + 1
  let Y : List ℂ := (List.range num).map (fun k =>
    if k < nyq then X.getD k 0
    else if num - (m - nyq) ≤ k then X.getD (n - (num - k)) 0
    else 0)
  (idft Y).map (fun z => z.re * ((num : ℝ) / (n : ℝ)))

/-- `GLaDOSVocoder._resample_audio` (lines 110-127). -/
def _resample_audio (audio : List ℝ) (original_sr target_sr : ℕ) : List ℝ :=
  if original_sr = target_sr then audio
  else if audio = [] then audio
  else
    let ratio : ℝ := (target_sr : ℝ) / (original_sr : ℝ)
    let new_length : ℤ := int_trunc ((audio.length : ℝ) * ratio)
    if new_length ≤ 0 then audio
    else scipy_signal_resample audio new_length.toNat

/-- The six effect parameters stored on `GLaDOSVocoder` (`__init__` lines
33-38, written by `create_custom_preset`). -/
structure EffectParameters where
  pitch_shift_semitones : ℝ
  formant_shift : ℝ
  robotic_intensity : ℝ
  echo_delay_ms : ℝ
  echo_decay : ℝ
  distortion_amount : ℝ

/-- `GLaDOSVocoder.__init__` parameter values. -/
def default_parameters : EffectParameters :=
  ⟨-2, 85/100, 3/10, 50, 2/10, 1/10⟩

/-- `load_preset` entry "subtle". -/
def subtle_preset : EffectParameters := ⟨-1, 9/10, 2/10, 30, 15/100, 5/100⟩

/-- `load_preset` entry "classic". -/
def classic_preset : EffectParameters := ⟨-2, 85/100, 3/10, 50, 2/10, 1/10⟩

/-- `load_preset` entry "heavy". -/
def heavy_preset : EffectParameters := ⟨-3, 8/10, 1/2, 70, 3/10, 15/100⟩

/-- `GLaDOSVocoder.load_preset` (lines 330-363): a known name overwrites all
six parameters via `create_custom_preset`, an unknown name only logs a
warning and leaves the state untouched. -/
def load_preset (name : String) (p : EffectParameters) : EffectParameters :=
  if name = "subtle" then subtle_preset
  else if name = "classic" then classic_preset
  else if name = "heavy" then heavy_preset
  else p

/-- `GLaDOSVocoder._apply_effects_pipeline` (lines 129-173): the fixed stage
order with an emptiness short-circuit after every stage; `9/10` is the
default `target_level` of `_normalize_audio`. -/
def _apply_effects_pipeline (p : EffectParameters) (audio : List ℝ) : List ℝ :=
  if audio = [] then audio
  else
    let a1 := _normalize_audio audio (9/10)
    if a1 = [] then a1 else
    let a2 := _pitch_shift a1 p.pitch_shift_semitones
    if a2 = [] then a2 else
    let a3 := _formant_shift a2 p.formant_shift
    if a3 = [] then a3 else
    let a4 := _add_robotic_resonance a3 p.robotic_intensity sample_rate
    if a4 = [] then a4 else
    let a5 := _apply_distortion a4 p.distortion_amount
    if a5 = [] then a5 else
    let a6 := _add_echo a5 p.echo_delay_ms p.echo_decay sample_rate
    if a6 = [] then a6 else
    _normalize_audio a6 (9/10)

/-! ### Generic list helpers -/

lemma getD_map_range {α : Type} (f : ℕ → α) (d : α) {n i : ℕ} (h : i < n) :
    ((List.range n).map f).getD i d = f i := by
  rw [List.getD_eq_getElem?_getD, List.getElem?_map, List.getElem?_range h]
  rfl

lemma getD_of_all_eq {α : Type} {l : List α} {z : α} (h : ∀ x ∈ l, x = z) (j : ℕ) :
    l.getD j z = z := by
  rw [List.getD_eq_getElem?_getD]
  cases hg : l[j]? with
  | none => rfl
  | some a => exact h a (List.getElem?_mem hg)

lemma getD_replicate_of_lt {α : Type} (a d : α) {n i : ℕ} (h : i < n) :
    (List.replicate n a).getD i d = a := by
  induction n generalizing i with
  | zero => omega
  | succ m ih =>
    cases i with
    | zero => rfl
    | succ j => exact ih (by omega)

lemma foldl_preserve {α β : Type} (P : β → Prop) (f : β → α → β) (l : List α) (b : β)
    (hb : P b) (hf : ∀ b a, P b → P (f b a)) : P (l.foldl f b) := by
  induction l generalizing b with
  | nil => exact hb
  | cons a t ih => exact ih _ (hf b a hb)

lemma eq_of_all_zero {l l' : List ℝ} (h : ∀ x ∈ l, x = 0) (h' : ∀ x ∈ l', x = 0)
    (hl : l.length = l'.length) : l = l' := by
  induction l generalizing l' with
  | nil =>
    cases l' with
    | nil => rfl
    | cons b t' => simp at hl
  | cons a t ih =>
    cases l' with
    | nil => simp at hl
    | cons b t' =>
      have ht : t.length = t'.length := by simpa using hl
      rw [h a (by simp), h' b (by simp),
        ih (fun x hx => h x (by simp [hx])) (fun x hx => h' x (by simp [hx])) ht]

/-! ### `max_abs` facts -/

lemma max_abs_cons (a : ℝ) (t : List ℝ) : max_abs (a :: t) = max |a| (max_abs t) := rfl

lemma max_abs_nonneg (l : List ℝ) : 0 ≤ max_abs l := by
  induction l with
  | nil => exact le_refl 0
  | cons a t ih => exact le_max_of_le_right ih

lemma max_abs_map_mul (l : List ℝ) (c : ℝ) :
    max_abs (l.map (fun x => x * c)) = |c| * max_abs l := by
  induction l with
  | nil => simp [max_abs]
  | cons a t ih =>
    simp only [List.map_cons, max_abs_cons, ih]
    rw [mul_max_of_nonneg _ _ (abs_nonneg c), abs_mul, mul_comm |a| |c|]

lemma max_abs_all_zero {l : List ℝ} (h : ∀ x ∈ l, x = 0) : max_abs l = 0 := by
  induction l with
  | nil => rfl
  | cons a t ih =>
    rw [max_abs_cons, h a (by simp), ih (fun x hx => h x (by simp [hx]))]
    simp

/-! ### Length stability of `_pitch_shift` -/

lemma pad_trim_length (shifted : List ℝ) (n : ℕ) :
    (if shifted.length < n then shifted ++ List.replicate (n - shifted.length) 0
     else shifted.take n).length = n := by
  split
  · simp only [List.length_append, List.length_replicate]
    omega
  · simp only [List.length_take]
    omega

lemma pitch_shift_length (audio : List ℝ) (s : ℝ) :
    (_pitch_shift audio s).length = audio.length := by
  simp only [_pitch_shift]
  split
  · rfl
  · split
    · rfl
    · exact pad_trim_length _ _

/-! ### Resampler facts -/

lemma int_trunc_natCast (n : ℕ) : int_trunc ((n : ℝ)) = (n : ℤ) := by
  simp [int_trunc, Int.floor_natCast]

lemma idft_length (X : List ℂ) : (idft X).length = X.length := by
  simp only [idft, List.length_map, List.length_range]

lemma scipy_signal_resample_length (x : List ℝ) (num : ℕ) :
    (scipy_signal_resample x num).length = num := by
  simp only [scipy_signal_resample, List.length_map, idft_length, List.length_range]

/-! ### Claim theorems -/

/-- C1: every effect stage (normalize, pitch shift, formant shift, robotic
resonance, distortion, echo) and the full effects pipeline map the empty
buffer to itself; the Python guards return the input before any computation,
so empty input can never raise. -/
theorem C1_empty_input_identity :
    (∀ t : ℝ, _normalize_audio [] t = []) ∧
    (∀ s : ℝ, _pitch_shift [] s = []) ∧
    (∀ r : ℝ, _formant_shift [] r = []) ∧
    (∀ (i : ℝ) (rate : ℕ), _add_robotic_resonance [] i rate = []) ∧
    (∀ a : ℝ, _apply_distortion [] a = []) ∧
    (∀ (d c : ℝ) (rate : ℕ), _add_echo [] d c rate = []) ∧
    (∀ p : EffectParameters, _apply_effects_pipeline p [] = []) := by
  refine ⟨?_, ?_, ?_, ?_, ?_, ?_, ?_⟩ <;> intros <;>
    simp [_normalize_audio, _pitch_shift, _formant_shift, _add_robotic_resonance,
      _apply_distortion, _add_echo, _apply_effects_pipeline]

/-- C3: each stage at its neutral parameter is an exact identity:
`_pitch_shift b 0 = b`, `_formant_shift b 1 = b`,
`_add_robotic_resonance b 0 rate = b`, `_apply_distortion b 0 = b`, and
`_add_echo b delay_ms 0 rate = b` for every delay value. -/
theorem C3_neutral_parameter_identity :
    (∀ b : List ℝ, _pitch_shift b 0 = b) ∧
    (∀ b : List ℝ, _formant_shift b 1 = b) ∧
    (∀ (b : List ℝ) (rate : ℕ), _add_robotic_resonance b 0 rate = b) ∧
    (∀ b : List ℝ, _apply_distortion b 0 = b) ∧
    (∀ (b : List ℝ) (delay_ms : ℝ) (rate : ℕ), _add_echo b delay_ms 0 rate = b) := by
  refine ⟨?_, ?_, ?_, ?_, ?_⟩ <;> intros <;>
    simp [_pitch_shift, _formant_shift, _add_robotic_resonance, _apply_distortion,
      _add_echo]

/-- C2: with target peak `9/10`, a buffer whose absolute maximum is positive
is scaled samplewise by `(9/10) / max_abs` and the output peak is exactly
`9/10` (the float statement `≤ 0.9 + ε` holds with equality in exact
arithmetic); an all-zero buffer is returned unchanged, the positive-max
branch (the only one that divides) never being taken. -/
theorem C2_normalize_peak (audio : List ℝ) :
    (0 < max_abs audio →
      _normalize_audio audio (9/10) =
        audio.map (fun x => x * ((9/10) / max_abs audio)) ∧
      max_abs (_normalize_audio audio (9/10)) = 9/10) ∧
    ((∀ x ∈ audio, x = 0) → _normalize_audio audio (9/10) = audio) := by
  constructor
  · intro hpos
    have hne : audio ≠ [] := by
      intro h
      rw [h] at hpos
      simp [max_abs] at hpos
    have h1 : _normalize_audio audio (9/10) =
        audio.map (fun x => x * ((9/10) / max_abs audio)) := by
      unfold _normalize_audio
      rw [if_neg hne, if_pos hpos]
    refine ⟨h1, ?_⟩
    rw [h1, max_abs_map_mul, abs_of_pos (div_pos (by norm_num) hpos),
      div_mul_cancel₀ _ (ne_of_gt hpos)]
  · intro hz
    unfold _normalize_audio
    split
    · rfl
    · rw [max_abs_all_zero hz]
      simp

/-- Witness for C2 at the buffers `[3, -6]` (positive peak) and `[0, 0]`
(all-zero). -/
theorem C2_normalize_peak_witness :
    _normalize_audio [3, -6] (9/10) = [(9 : ℝ)/20, -(9/10)] ∧
    _normalize_audio [(0 : ℝ), 0] (9/10) = [0, 0] := by
  constructor
  · have hpos : (0 : ℝ) < max_abs [3, -6] := by
      norm_num [max_abs, max_def]
    have h := (C2_normalize_peak [3, -6]).1 hpos
    rw [h.1]
    norm_num [max_abs, max_def]
  · exact (C2_normalize_peak [0, 0]).2 (by simp)

/-- C10: normalization is idempotent in exact arithmetic for every positive
target peak: a second pass either scales by `p / p = 1` or takes the
unchanged branch. -/
theorem C10_normalize_idempotent (audio : List ℝ) (p : ℝ) (hp : 0 < p) :
    _normalize_audio (_normalize_audio audio p) p = _normalize_audio audio p := by
  by_cases hne : audio = []
  · subst hne
    simp [_normalize_audio]
  by_cases hpos : 0 < max_abs audio
  · have h1 : _normalize_audio audio p = audio.map (fun x => x * (p / max_abs audio)) := by
      unfold _normalize_audio
      rw [if_neg hne, if_pos hpos]
    have hM : max_abs (_normalize_audio audio p) = p := by
      rw [h1, max_abs_map_mul, abs_of_pos (div_pos hp hpos),
        div_mul_cancel₀ _ (ne_of_gt hpos)]
    have hne2 : _normalize_audio audio p ≠ [] := by
      rw [h1]
      simpa using hne
    generalize hb : _normalize_audio audio p = b at hM hne2 ⊢
    unfold _normalize_audio
    rw [if_neg hne2, if_pos (by rw [hM]; exact hp), hM, div_self (ne_of_gt hp)]
    simp
  · have h1 : _normalize_audio audio p = audio := by
      unfold _normalize_audio
      rw [if_neg hne, if_neg hpos]
    rw [h1, h1]

/-- Witness for C10 at the buffer `[2]` with target peak `9/10`. -/
theorem C10_normalize_idempotent_witness :
    (0 : ℝ) < 9/10 ∧
    _normalize_audio (_normalize_audio [2] (9/10)) (9/10) = _normalize_audio [2] (9/10) :=
  ⟨by norm_num, C10_normalize_idempotent [2] (9/10) (by norm_num)⟩

/-- C4: `_pitch_shift` always returns a buffer with exactly the sample count
of its input, for every buffer and every semitone value: the interpolated
result is truncated or right-padded with zeros to the original length, and
the degenerate branches return the input itself. -/
theorem C4_pitch_shift_length_stable (audio : List ℝ) (semitones : ℝ) :
    (_pitch_shift audio semitones).length = audio.length :=
  pitch_shift_length audio semitones

/-- C5: `_resample_audio` is the identity when the rates already agree; when
`newLength = int(len · target/orig) ≤ 0` the input is returned unchanged (the
documented degenerate-case policy); and when `newLength > 0` the output has
exactly `newLength` samples. -/
theorem C5_resample_behavior (audio : List ℝ) (original_sr target_sr : ℕ) :
    (original_sr = target_sr → _resample_audio audio original_sr target_sr = audio) ∧
    (int_trunc ((audio.length : ℝ) * ((target_sr : ℝ) / (original_sr : ℝ))) ≤ 0 →
      _resample_audio audio original_sr target_sr = audio) ∧
    (∀ n : ℕ, 0 < n →
      int_trunc ((audio.length : ℝ) * ((target_sr : ℝ) / (original_sr : ℝ))) = (n : ℤ) →
      (_resample_audio audio original_sr target_sr).length = n) := by
  refine ⟨?_, ?_, ?_⟩
  · intro h
    unfold _resample_audio
    rw [if_pos h]
  · intro h
    unfold _resample_audio
    split
    · rfl
    split
    · rfl
    rw [if_pos h]
  · intro n hn he
    unfold _resample_audio
    split
    · rename_i heq
      subst heq
      by_cases h0 : original_sr = 0
      · subst h0
        simp [int_trunc] at he
        omega
      · rw [div_self (Nat.cast_ne_zero.2 h0), mul_one, int_trunc_natCast,
          Nat.cast_inj] at he
        exact he
    split
    · rename_i ha
      rw [ha] at he
      simp [int_trunc] at he
      omega
    simp only [he]
    rw [if_neg (by omega : ¬((n : ℤ) ≤ 0)), scipy_signal_resample_length,
      Int.toNat_natCast]

/-- Witness for C5: equal rates are the identity, and 88200 samples resampled
from 44100 Hz to 22050 Hz yield exactly 44100 samples. -/
theorem C5_resample_witness :
    _resample_audio (List.replicate 5 (1 : ℝ)) 22050 22050 = List.replicate 5 1 ∧
    (_resample_audio (List.replicate 88200 (0 : ℝ)) 44100 22050).length = 44100 := by
  constructor
  · exact (C5_resample_behavior (List.replicate 5 1) 22050 22050).1 rfl
  · refine (C5_resample_behavior (List.replicate 88200 0) 44100 22050).2.2 44100
      (by norm_num) ?_
    rw [show (((List.replicate 88200 (0 : ℝ)).length : ℝ) *
        (((22050 : ℕ) : ℝ) / ((44100 : ℕ) : ℝ))) = ((44100 : ℕ) : ℝ) by
      simp only [List.length_replicate]
      push_cast
      norm_num]
    rw [int_trunc_natCast]

/-- C9: an unknown preset name leaves all six effect parameters unchanged
(and, being a total function in the embedding of the dictionary lookup,
cannot raise). -/
theorem C9_load_preset_unknown (p : EffectParameters) (name : String)
    (h : name ∉ (["subtle", "classic", "heavy"] : List String)) :
    load_preset name p = p := by
  simp only [List.mem_cons, List.not_mem_nil, or_false, not_or] at h
  unfold load_preset
  rw [if_neg h.1, if_neg h.2.1, if_neg h.2.2]

/-- Witness for C9 at the unknown name `"nonexistent"` and the constructor
parameter state. -/
theorem C9_load_preset_unknown_witness :
    load_preset "nonexistent" default_parameters = default_parameters :=
  C9_load_preset_unknown default_parameters "nonexistent" (by decide)

/-- C6 counterexample: on a 1600-sample buffer of ones with delay 70 ms,
decay `3/10`, rate 22050, the claimed `delaySamples = round(70·22050/1000) =
round(1543.5) = 1544` would make index 1543 echo-free (causality below the
delay), but the code truncates (`int(1543.5) = 1543`) and adds an echo term
at index 1543: the output sample there is `1 + 3/10 ≠ 1`. -/
theorem C6_add_echo_counterexample :
    (1543 : ℤ) < round ((70 : ℝ) * ((22050 : ℕ) : ℝ) / 1000) ∧
    (_add_echo (List.replicate 1600 (1 : ℝ)) 70 (3/10) 22050).getD 1543 0 = 1 + 3/10 ∧
    (List.replicate 1600 (1 : ℝ)).getD 1543 0 = 1 ∧ ((1 : ℝ) + 3/10) ≠ 1 := by
  refine ⟨?_, ?_, getD_replicate_of_lt _ _ (by norm_num), by norm_num⟩
  · rw [round_eq, show ((70 : ℝ) * ((22050 : ℕ) : ℝ) / 1000 + 1/2) = ((1544 : ℤ) : ℝ) by
      push_cast; norm_num, Int.floor_intCast]
    norm_num
  · have hds : int_trunc ((70 : ℝ) * ((22050 : ℕ) : ℝ) / 1000) = (1543 : ℤ) := by
      unfold int_trunc
      rw [if_pos (by positivity), Int.floor_eq_iff]
      constructor
      · push_cast
        norm_num
      · push_cast
        norm_num
    unfold _add_echo
    rw [if_neg (by
      push_neg
      refine ⟨by norm_num, by norm_num, ?_⟩
      intro hcontra
      have hlen := congrArg List.length hcontra
      simp only [List.length_replicate, List.length_nil] at hlen
      omega)]
    simp only [hds]
    rw [if_neg (by
      simp only [List.length_replicate]
      omega : ¬(((List.replicate 1600 (1:ℝ)).length : ℤ) ≤ 1543 ∨ (1543 : ℤ) ≤ 0))]
    rw [List.length_replicate]
    rw [getD_map_range _ _ (by norm_num : (1543 : ℕ) < 1600)]
    rw [getD_replicate_of_lt _ _ (by norm_num : (1543 : ℕ) < 1600)]
    rw [if_pos (by omega : (1543 : ℤ).toNat ≤ 1543)]
    rw [getD_replicate_of_lt _ _ (by omega : 1543 - (1543 : ℤ).toNat < 1600)]
    norm_num

/-- C6 as amended: `delaySamples` is the truncation `int(delayMs·rate/1000)`
(floor for nonnegative products), not a rounding to nearest; with that
value the rest of the claim holds: out-of-range delays give the identity,
indices below the delay are unchanged (causality) and indices at or above it
gain `decay · audio[i - delaySamples]`, the length being preserved. -/
theorem C6_add_echo_corrected (audio : List ℝ) (delay_ms decay : ℝ) (rate : ℕ)
    (hne : audio ≠ []) (hdm : delay_ms ≠ 0) (hdc : decay ≠ 0) :
    ((int_trunc (delay_ms * (rate : ℝ) / 1000) ≤ 0 ∨
        (audio.length : ℤ) ≤ int_trunc (delay_ms * (rate : ℝ) / 1000)) →
      _add_echo audio delay_ms decay rate = audio) ∧
    (0 < int_trunc (delay_ms * (rate : ℝ) / 1000) →
      int_trunc (delay_ms * (rate : ℝ) / 1000) < (audio.length : ℤ) →
      (_add_echo audio delay_ms decay rate).length = audio.length ∧
      (∀ i : ℕ, (i : ℤ) < int_trunc (delay_ms * (rate : ℝ) / 1000) →
        (_add_echo audio delay_ms decay rate).getD i 0 = audio.getD i 0) ∧
      (∀ i : ℕ, int_trunc (delay_ms * (rate : ℝ) / 1000) ≤ (i : ℤ) →
        i < audio.length →
        (_add_echo audio delay_ms decay rate).getD i 0 =
          audio.getD i 0 +
            decay * audio.getD (i - (int_trunc (delay_ms * (rate : ℝ) / 1000)).toNat) 0)) := by
  have hguard : ¬(delay_ms = 0 ∨ decay = 0 ∨ audio = []) := by
    push_neg
    exact ⟨hdm, hdc, hne⟩
  set ds : ℤ := int_trunc (delay_ms * (rate : ℝ) / 1000) with hds
  constructor
  · intro h
    unfold _add_echo
    rw [if_neg hguard]
    simp only [← hds]
    rw [if_pos (Or.symm h)]
  · intro h1 h2
    unfold _add_echo
    rw [if_neg hguard]
    simp only [← hds]
    rw [if_neg (by omega : ¬((audio.length : ℤ) ≤ ds ∨ ds ≤ 0))]
    refine ⟨by simp, ?_, ?_⟩
    · intro i hi
      rw [getD_map_range _ _ (by omega : i < audio.length)]
      rw [if_neg (by omega : ¬(ds.toNat ≤ i))]
      rw [add_zero]
    · intro i hi hilen
      rw [getD_map_range _ _ hilen]
      rw [if_pos (by omega : ds.toNat ≤ i)]
      ring

/-- Witness for the amended C6 at buffer `[1, 2, 3]`, delay 500 ms, decay
`1/2`, rate 2 Hz (`delaySamples = 1`). -/
theorem C6_add_echo_witness :
    (_add_echo [(1 : ℝ), 2, 3] 500 (1/2) 2).length = 3 ∧
    (_add_echo [(1 : ℝ), 2, 3] 500 (1/2) 2).getD 0 0 = 1 ∧
    (_add_echo [(1 : ℝ), 2, 3] 500 (1/2) 2).getD 1 0 = 2 + 1/2 * 1 := by
  have hds : int_trunc ((500 : ℝ) * ((2 : ℕ) : ℝ) / 1000) = (1 : ℤ) := by
    unfold int_trunc
    rw [if_pos (by positivity),
      show ((500 : ℝ) * ((2 : ℕ) : ℝ) / 1000) = ((1 : ℤ) : ℝ) by push_cast; norm_num,
      Int.floor_intCast]
  have h := C6_add_echo_corrected [(1 : ℝ), 2, 3] 500 (1/2) 2 (by simp)
    (by norm_num) (by norm_num)
  rw [hds] at h
  have h2 := h.2 (by norm_num) (by norm_num)
  refine ⟨by simpa using h2.1, ?_, ?_⟩
  · rw [h2.2.1 0 (by norm_num)]
    rfl
  · rw [h2.2.2 1 (by norm_num) (by norm_num)]
    norm_num [List.getD]

/-! ### All-zero (silent) buffers propagate through every stage -/

lemma normalize_all_zero {l : List ℝ} (h : ∀ x ∈ l, x = 0) :
    ∀ t : ℝ, _normalize_audio l t = l := by
  intro t
  unfold _normalize_audio
  split
  · rfl
  · rw [max_abs_all_zero h]
    simp

lemma interp_point_all_zero {fp : List ℝ} (h : ∀ x ∈ fp, x = 0) (t : ℝ) :
    interp_point fp t = 0 := by
  unfold interp_point
  split
  · rfl
  split
  · exact getD_of_all_eq h 0
  split
  · exact getD_of_all_eq h _
  · simp only [getD_of_all_eq h]
    ring

lemma pitch_shift_all_zero {l : List ℝ} (h : ∀ x ∈ l, x = 0) :
    ∀ s : ℝ, _pitch_shift l s = l := by
  intro s
  refine eq_of_all_zero ?_ h (pitch_shift_length l s)
  intro x hx
  simp only [_pitch_shift] at hx
  split at hx
  · exact h x hx
  split at hx
  · exact h x hx
  split at hx
  · rcases List.mem_append.1 hx with hx1 | hx2
    · rcases List.mem_map.1 hx1 with ⟨t, ht, rfl⟩
      exact interp_point_all_zero h t
    · exact List.eq_of_mem_replicate hx2
  · rcases List.mem_map.1 (List.take_subset _ _ hx) with ⟨t, ht, rfl⟩
    exact interp_point_all_zero h t

lemma dft_length (x : List ℂ) : (dft x).length = x.length := by
  simp only [dft, List.length_map, List.length_range]

lemma dft_all_zero {x : List ℂ} (h : ∀ z ∈ x, z = 0) : ∀ z ∈ dft x, z = 0 := by
  intro z hz
  rcases List.mem_map.1 hz with ⟨k, hk, rfl⟩
  apply List.sum_eq_zero
  intro y hy
  rcases List.mem_map.1 hy with ⟨j, hj, rfl⟩
  rw [getD_of_all_eq h, zero_mul]

lemma idft_all_zero {X : List ℂ} (h : ∀ z ∈ X, z = 0) : ∀ z ∈ idft X, z = 0 := by
  intro z hz
  rcases List.mem_map.1 hz with ⟨j, hj, rfl⟩
  rw [List.sum_eq_zero, zero_div]
  intro y hy
  rcases List.mem_map.1 hy with ⟨k, hk, rfl⟩
  rw [getD_of_all_eq h, zero_mul]

lemma formant_remap_length (fft_data : List ℂ) (r : ℝ) (n : ℕ) :
    (formant_remap fft_data r n).length = n := by
  unfold formant_remap
  exact foldl_preserve (fun (acc : List ℂ) => acc.length = n) _ _ _ (by simp)
    (fun b a hb => by
      dsimp only
      split
      · split
        · simp [hb]
        · exact hb
      · exact hb)

lemma formant_remap_all_zero {fft_data : List ℂ} (hf : ∀ z ∈ fft_data, z = 0)
    (r : ℝ) (n : ℕ) : ∀ z ∈ formant_remap fft_data r n, z = 0 := by
  unfold formant_remap
  exact foldl_preserve (fun (acc : List ℂ) => ∀ z ∈ acc, z = 0) _ _ _
    (fun z hz => List.eq_of_mem_replicate hz)
    (fun b a hb => by
      dsimp only
      split
      · split
        · intro z hz
          rcases List.mem_or_eq_of_mem_set hz with hz' | rfl
          · rcases List.mem_or_eq_of_mem_set hz' with hz'' | rfl
            · exact hb z hz''
            · exact getD_of_all_eq hf _
          · exact getD_of_all_eq hf _
        · exact hb
      · exact hb)

lemma formant_shift_all_zero {l : List ℝ} (h : ∀ x ∈ l, x = 0) :
    ∀ r : ℝ, _formant_shift l r = l := by
  intro r
  unfold _formant_shift
  split
  · rfl
  · have hcast : ∀ z ∈ l.map (fun x : ℝ => (x : ℂ)), z = 0 := by
      intro w hw
      rcases List.mem_map.1 hw with ⟨y, hy, rfl⟩
      rw [h y hy]
      exact Complex.ofReal_zero
    refine eq_of_all_zero ?_ h ?_
    · intro x hx
      rcases List.mem_map.1 hx with ⟨z, hz, rfl⟩
      rw [idft_all_zero (formant_remap_all_zero (dft_all_zero hcast) r l.length) z hz]
      exact Complex.zero_re
    · rw [List.length_map, idft_length, formant_remap_length]

lemma robotic_all_zero {l : List ℝ} (h : ∀ x ∈ l, x = 0) :
    ∀ (i : ℝ) (rate : ℕ), _add_robotic_resonance l i rate = l := by
  intro i rate
  unfold _add_robotic_resonance
  split
  · rfl
  · refine eq_of_all_zero ?_ h (by simp)
    intro x hx
    rcases List.mem_map.1 hx with ⟨j, hj, rfl⟩
    simp only [getD_of_all_eq h]
    ring

lemma distortion_all_zero {l : List ℝ} (h : ∀ x ∈ l, x = 0) :
    ∀ a : ℝ, _apply_distortion l a = l := by
  intro a
  unfold _apply_distortion
  split
  · rfl
  · refine eq_of_all_zero ?_ h (by simp)
    intro x hx
    rcases List.mem_map.1 hx with ⟨y, hy, rfl⟩
    rw [h y hy]
    simp

lemma echo_all_zero {l : List ℝ} (h : ∀ x ∈ l, x = 0) :
    ∀ (dms dc : ℝ) (rate : ℕ), _add_echo l dms dc rate = l := by
  intro dms dc rate
  unfold _add_echo
  split
  · rfl
  dsimp only
  split
  · rfl
  · refine eq_of_all_zero ?_ h (by simp)
    intro x hx
    rcases List.mem_map.1 hx with ⟨j, hj, rfl⟩
    simp only [getD_of_all_eq h]
    split <;> ring

/-- C8: a silent (all-zero) non-empty buffer passes through the full effects
pipeline with the "heavy" preset (pitch −3, formant 0.8, robotic 0.5, echo
70 ms / 0.3, distortion 0.15) unchanged, so no stage introduces energy from
silence. -/
theorem C8_silent_pipeline (audio : List ℝ) (hne : audio ≠ [])
    (hz : ∀ x ∈ audio, x = 0) :
    _apply_effects_pipeline heavy_preset audio = audio := by
  unfold _apply_effects_pipeline
  simp only [normalize_all_zero hz, pitch_shift_all_zero hz,
    formant_shift_all_zero hz, robotic_all_zero hz, distortion_all_zero hz,
    echo_all_zero hz, if_neg hne]

/-- Witness for C8 at the concrete silent buffer `[0, 0, 0]`. -/
theorem C8_silent_pipeline_witness :
    _apply_effects_pipeline heavy_preset [0, 0, 0] = [0, 0, 0] :=
  C8_silent_pipeline [0, 0, 0] (by simp) (by
    intro x hx
    simp only [List.mem_cons, List.not_mem_nil, or_false, or_self] at hx
    exact hx)

/-! ### Evaluating the formant-shift spectrum at the 4-sample impulse -/

lemma exp_ofReal_mul_I (θ : ℝ) :
    Complex.exp ((θ : ℂ) * Complex.I) = (Real.cos θ : ℂ) + (Real.sin θ : ℂ) * Complex.I := by
  rw [Complex.exp_mul_I, Complex.ofReal_cos, Complex.ofReal_sin]

lemma dft_x4_getD_1 : (dft [0, 1, 0, 0]).getD 1 0 = -Complex.I := by
  unfold dft
  rw [show ([0, 1, 0, 0] : List ℂ).length = 4 from rfl]
  rw [getD_map_range _ _ (by norm_num : (1 : ℕ) < 4)]
  rw [show List.range 4 = [0, 1, 2, 3] from rfl]
  simp only [List.map_cons, List.map_nil, List.sum_cons, List.sum_nil]
  rw [show ([0, 1, 0, 0] : List ℂ).getD 0 0 = 0 from rfl,
    show ([0, 1, 0, 0] : List ℂ).getD 1 0 = 1 from rfl,
    show ([0, 1, 0, 0] : List ℂ).getD 2 0 = 0 from rfl,
    show ([0, 1, 0, 0] : List ℂ).getD 3 0 = 0 from rfl]
  simp only [zero_mul, one_mul, add_zero, zero_add]
  rw [show ((-2 * Real.pi * ((1 : ℕ) : ℝ) * ((1 : ℕ) : ℝ) / ((4 : ℕ) : ℝ) : ℝ))
      = -(Real.pi / 2) by push_cast; ring]
  rw [exp_ofReal_mul_I, Real.cos_neg, Real.sin_neg, Real.cos_pi_div_two,
    Real.sin_pi_div_two]
  push_cast
  ring

lemma dft_x4_getD_2 : (dft [0, 1, 0, 0]).getD 2 0 = -1 := by
  unfold dft
  rw [show ([0, 1, 0, 0] : List ℂ).length = 4 from rfl]
  rw [getD_map_range _ _ (by norm_num : (2 : ℕ) < 4)]
  rw [show List.range 4 = [0, 1, 2, 3] from rfl]
  simp only [List.map_cons, List.map_nil, List.sum_cons, List.sum_nil]
  rw [show ([0, 1, 0, 0] : List ℂ).getD 0 0 = 0 from rfl,
    show ([0, 1, 0, 0] : List ℂ).getD 1 0 = 1 from rfl,
    show ([0, 1, 0, 0] : List ℂ).getD 2 0 = 0 from rfl,
    show ([0, 1, 0, 0] : List ℂ).getD 3 0 = 0 from rfl]
  simp only [zero_mul, one_mul, add_zero, zero_add]
  rw [show ((-2 * Real.pi * ((1 : ℕ) : ℝ) * ((2 : ℕ) : ℝ) / ((4 : ℕ) : ℝ) : ℝ))
      = -Real.pi by push_cast; ring]
  rw [exp_ofReal_mul_I, Real.cos_neg, Real.sin_neg, Real.cos_pi, Real.sin_pi]
  push_cast
  ring

lemma remap_x4 :
    formant_remap (dft [0, 1, 0, 0]) (1/2) 4 = [-Complex.I, 0, 0, -1] := by
  have htr : int_trunc (((1 : ℕ) : ℝ) * (1/2)) = 0 := by
    unfold int_trunc
    rw [if_pos (by norm_num), Int.floor_eq_iff]
    constructor
    · push_cast
      norm_num
    · push_cast
      norm_num
  unfold formant_remap
  rw [show (4 / 2 : ℕ) = 2 from rfl, show List.range 2 = [0, 1] from rfl]
  simp only [List.foldl_cons, List.foldl_nil]
  rw [if_neg (by norm_num : ¬(0 < (0 : ℕ)))]
  rw [if_pos (by norm_num : 0 < (1 : ℕ))]
  simp only [htr]
  rw [if_pos (by constructor <;> norm_num)]
  rw [show List.replicate 4 (0 : ℂ) = [0, 0, 0, 0] from rfl]
  rw [show (0 : ℤ).toNat = 0 from rfl]
  rw [show (4 - 1 - 0 : ℕ) = 3 from rfl, show (4 - 1 - 1 : ℕ) = 2 from rfl]
  rw [dft_x4_getD_1, dft_x4_getD_2]
  rfl

lemma idft_y4_getD_0_im :
    ((idft [-Complex.I, 0, 0, -1]).getD 0 0).im = -(1/4) := by
  unfold idft
  rw [show ([-Complex.I, 0, 0, -1] : List ℂ).length = 4 from rfl]
  rw [getD_map_range _ _ (by norm_num : (0 : ℕ) < 4)]
  rw [show List.range 4 = [0, 1, 2, 3] from rfl]
  simp only [List.map_cons, List.map_nil, List.sum_cons, List.sum_nil]
  rw [show ([-Complex.I, 0, 0, -1] : List ℂ).getD 0 0 = -Complex.I from rfl,
    show ([-Complex.I, 0, 0, -1] : List ℂ).getD 1 0 = 0 from rfl,
    show ([-Complex.I, 0, 0, -1] : List ℂ).getD 2 0 = 0 from rfl,
    show ([-Complex.I, 0, 0, -1] : List ℂ).getD 3 0 = -1 from rfl]
  simp only [Nat.cast_zero, mul_zero, zero_mul, zero_div, Complex.ofReal_zero,
    Complex.exp_zero, mul_one, zero_add, add_zero]
  rw [show (-Complex.I + -1 : ℂ) = -1 - Complex.I by ring]
  rw [show (((4 : ℕ) : ℂ)) = (4 : ℂ) by push_cast; ring]
  simp [Complex.div_im, Complex.normSq_apply]
  norm_num

/-- C7 (refuted at a concrete input, exposing a code bug): for the non-silent
buffer `[0, 1, 0, 0]` and formant ratio `1/2` (rate 22050, n = 4), the spectrum
remapped by `_formant_shift` is `[-i, 0, 0, -1]`: the DC bin — its own
Hermitian mirror, hence necessarily real for a Hermitian-symmetric spectrum —
holds the non-real value `-i`, and the inverse transform is not a real-valued
signal (its first sample has imaginary part `-1/4`).  The cause: line 241
writes the "mirror" at index `n-1-new_idx` with value `fft_data[n-1-i]`
instead of index `(n-new_idx) mod n` with value `conj (fft_data[i])`. -/
theorem C7_formant_spectrum_not_hermitian :
    formant_remap (dft (([0, 1, 0, 0] : List ℝ).map (fun (r : ℝ) => (r : ℂ)))) (1/2) 4
        = [-Complex.I, 0, 0, -1] ∧
    (-Complex.I).im ≠ 0 ∧
    ((idft [-Complex.I, 0, 0, -1]).getD 0 0).im = -(1/4) := by
  refine ⟨?_, by simp, idft_y4_getD_0_im⟩
  rw [show (([0, 1, 0, 0] : List ℝ).map (fun (r : ℝ) => (r : ℂ))) = ([0, 1, 0, 0] : List ℂ) by
    simp]
  exact remap_x4

end Vocoder
